import Mathlib

/-
Verification of the MFRM (multi-flight recapture method) demand estimation
library.  The source consists of six functions:

  selection_probs        : choice probabilities from utilities + market share
  estimate_host_level    : aggregate demand / spill / recapture
  estimate_class_level   : per-product demand / spill / recapture
  calibrate_no_booking   : redistributes unaccounted spill over products
                           with no observed bookings
  demand_mass_balance_h  : 3x3 linear mass-balance solve (host level)
  demand_mass_balance_c  : 2x2 linear mass-balance solve (class level)

Python dictionaries are modelled as association lists, floating point
arithmetic as exact rational arithmetic (the linear solver is modelled by
Cramer's rule, which computes the same unique solution the library solver
approximates), and exceptions (ZeroDivisionError, KeyError, LinAlgError,
InvalidInputParameters) as Option / Except results.
-/

namespace Mfrm

/-- Per-product estimate record, mirroring the
dictionaries with keys demand / spill / recapture built by the source. -/
structure Estimate where
  demand : ℚ
  spill : ℚ
  recapture : ℚ
  deriving DecidableEq

/-- Errors the source can raise: InvalidInputParameters, or a numeric
failure (ZeroDivisionError, KeyError, singular-matrix LinAlgError). -/
inductive MfrmError where
  | invalidInput
  | numericError
  deriving DecidableEq

instance {ε σ : Type} [DecidableEq ε] [DecidableEq σ] : DecidableEq (Except ε σ) :=
  fun a b =>
    match a, b with
    | .error x, .error y =>
      if h : x = y then isTrue (by rw [h])
      else isFalse (fun hc => by cases hc; exact h rfl)
    | .error _, .ok _ => isFalse (fun hc => by cases hc)
    | .ok _, .error _ => isFalse (fun hc => by cases hc)
    | .ok x, .ok y =>
      if h : x = y then isTrue (by rw [h])
      else isFalse (fun hc => by cases hc; exact h rfl)

variable {α : Type} [DecidableEq α]

/-- First-match lookup in an association list, following Python dict access
on dictionaries (whose keys are unique). -/
def lookupQ {β : Type} : List (α × β) → α → Option β
  | [], _ => none
  | kv :: rest, k => if kv.1 = k then some kv.2 else lookupQ rest k

/-- Python dict.get with a default value. -/
def dget {β : Type} (m : List (α × β)) (k : α) (d : β) : β :=
  (lookupQ m k).getD d

/-- Sum of the spill fields of an estimate mapping; this is the value the
source calls class_spill. -/
def sumSpill (es : List (α × Estimate)) : ℚ :=
  (es.map fun ke => ke.2.spill).sum

/-- Dense 2x2 linear solve by Cramer's rule; none on a singular matrix,
where the library solver raises LinAlgError. -/
def solve2 (a11 a12 a21 a22 b1 b2 : ℚ) : Option (ℚ × ℚ) :=
  if a11 * a22 - a12 * a21 = 0 then none
  else some ((b1 * a22 - a12 * b2) / (a11 * a22 - a12 * a21),
             (a11 * b2 - b1 * a21) / (a11 * a22 - a12 * a21))

/-- Dense 3x3 linear solve by Cramer's rule; none on a singular matrix,
where the library solver raises LinAlgError. -/
def det3 (a11 a12 a13 a21 a22 a23 a31 a32 a33 : ℚ) : ℚ :=
  a11 * (a22 * a33 - a23 * a32) - a12 * (a21 * a33 - a23 * a31)
    + a13 * (a21 * a32 - a22 * a31)

def solve3 (a11 a12 a13 a21 a22 a23 a31 a32 a33 b1 b2 b3 : ℚ) :
    Option (ℚ × ℚ × ℚ) :=
  if det3 a11 a12 a13 a21 a22 a23 a31 a32 a33 = 0 then none
  else some
    (det3 b1 a12 a13 b2 a22 a23 b3 a32 a33 / det3 a11 a12 a13 a21 a22 a23 a31 a32 a33,
     det3 a11 b1 a13 a21 b2 a23 a31 b3 a33 / det3 a11 a12 a13 a21 a22 a23 a31 a32 a33,
     det3 a11 a12 b1 a21 a22 b2 a31 a32 b3 / det3 a11 a12 a13 a21 a22 a23 a31 a32 a33)

theorem solve2_spec (a11 a12 a21 a22 b1 b2 x y : ℚ)
    (h : solve2 a11 a12 a21 a22 b1 b2 = some (x, y)) :
    a11 * x + a12 * y = b1 ∧ a21 * x + a22 * y = b2 := by
  unfold solve2 at h
  split_ifs at h with hdet
  simp only [Option.some.injEq, Prod.mk.injEq] at h
  obtain ⟨hx, hy⟩ := h
  subst hx hy
  constructor <;> · field_simp; ring

theorem solve3_spec (a11 a12 a13 a21 a22 a23 a31 a32 a33 b1 b2 b3 x y z : ℚ)
    (h : solve3 a11 a12 a13 a21 a22 a23 a31 a32 a33 b1 b2 b3 = some (x, y, z)) :
    a11 * x + a12 * y + a13 * z = b1 ∧
    a21 * x + a22 * y + a23 * z = b2 ∧
    a31 * x + a32 * y + a33 * z = b3 := by
  unfold solve3 at h
  split_ifs at h with hdet
  simp only [Option.some.injEq, Prod.mk.injEq] at h
  obtain ⟨hx, hy, hz⟩ := h
  subst hx hy hz
  unfold det3 at hdet ⊢
  refine ⟨?_, ?_, ?_⟩ <;> · field_simp; ring

/-- Host-level demand mass balance: solves
demand - spill + recapture = odemand, spill = close_prob * demand,
recapture = recapture_rate * spill, as the source's 3x3 system. -/
def demand_mass_balance_h (odemand close_prob recapture_rate : ℚ) :
    Option (ℚ × ℚ × ℚ) :=
  solve3 1 (-1) 1 (-close_prob) 1 0 0 (-recapture_rate) 1 odemand 0 0

/-- Class-level demand mass balance.  Returns (0,0,0) when the class has no
observed demand; errors where Python divides by a zero host_odemand or the
2x2 matrix is singular. -/
def demand_mass_balance_c (host_odemand class_odemand avail host_recapture : ℚ) :
    Option (ℚ × ℚ × ℚ) :=
  if class_odemand = 0 then some (0, 0, 0)
  else if host_odemand = 0 then none
  else
    match solve2 1 (-1) (-(1 - avail)) 1
        (class_odemand - host_recapture * class_odemand / host_odemand) 0 with
    | none => none
    | some (d, s) => some (d, s, host_recapture * class_odemand / host_odemand)

/-- Host-level estimator.  Returns (0,0,0) on an empty probability mapping;
errors where Python divides by zero (prob_market_open = 0 or nofly_prob = 1)
or the 3x3 solve is singular. -/
def estimate_host_level (observed availability probs : List (α × ℚ))
    (nofly_prob : ℚ) : Option (ℚ × ℚ × ℚ) :=
  if probs.isEmpty then some (0, 0, 0)
  else
    let prob_market_open :=
      nofly_prob + (probs.map fun ppr => ppr.2 * dget availability ppr.1 0).sum
    if prob_market_open = 0 then none
    else if (1 : ℚ) - nofly_prob = 0 then none
    else
      demand_mass_balance_h ((observed.map Prod.snd).sum)
        ((1 - prob_market_open) / (1 - nofly_prob))
        ((prob_market_open - nofly_prob) / prob_market_open)

/-- Loop body of estimate_class_level over the product keys of probs,
raising InvalidInputParameters on a product with zero availability and
positive observed demand. -/
def classLoop (observed availability : List (α × ℚ))
    (total_odemand host_recapture : ℚ) :
    List α → Except MfrmError (List (α × Estimate))
  | [] => .ok []
  | p :: ps =>
    if dget availability p 0 = 0 ∧ 0 < dget observed p 0 then .error .invalidInput
    else if dget observed p 0 ≠ 0 then
      match demand_mass_balance_c total_odemand (dget observed p 0)
          (dget availability p 0) host_recapture with
      | none => .error .numericError
      | some (d, s, r) =>
        match classLoop observed availability total_odemand host_recapture ps with
        | .error e => .error e
        | .ok rest => .ok ((p, ⟨d, s, r⟩) :: rest)
    else
      match classLoop observed availability total_odemand host_recapture ps with
      | .error e => .error e
      | .ok rest => .ok ((p, ⟨0, 0, 0⟩) :: rest)

/-- Product keys of an estimate mapping whose observed demand is zero; this
is the source's list comprehension over estimates.keys(). -/
def zeroObserved (es : List (α × Estimate)) (observed : List (α × ℚ)) : List α :=
  (es.map Prod.fst).filter fun k => dget observed k 0 = 0

/-- Raw calibration weights probs[p] * (1 - availability.get(p, 0)); none
models the KeyError Python raises when p is missing from probs. -/
def weightsOf (probs availability : List (α × ℚ)) :
    List α → Option (List (α × ℚ))
  | [] => some []
  | p :: ps =>
    match lookupQ probs p with
    | none => none
    | some pr =>
      match weightsOf probs availability ps with
      | none => none
      | some ws => some ((p, pr * (1 - dget availability p 0)) :: ws)

/-- Overwrite the demand and spill of the entry keyed p with v, keeping its
recapture, as the source's two mutations of estimates[p]. -/
def updEst (es : List (α × Estimate)) (p : α) (v : ℚ) : List (α × Estimate) :=
  es.map fun ke => if ke.1 = p then (ke.1, ⟨v, v, ke.2.recapture⟩) else ke

/-- The source's final loop: for each weighted product set demand and spill
to unaccounted_spill * weight. -/
def applyWeights (es : List (α × Estimate)) (unacc : ℚ) :
    List (α × ℚ) → List (α × Estimate)
  | [] => es
  | pw :: rest => applyWeights (updEst es pw.1 (unacc * pw.2)) unacc rest

/-- Calibration step.  Redistributes positive unaccounted spill over the
zero-observed-demand products; errors where Python raises (KeyError on a
product missing from probs, ZeroDivisionError when the weights are nonempty
and sum to zero).  When the weights mapping is empty the normalization
comprehension performs no division and the estimates are returned as is. -/
def calibrate_no_booking (estimates : List (α × Estimate))
    (observed availability probs : List (α × ℚ)) (host_spill : ℚ) :
    Except MfrmError (List (α × Estimate)) :=
  if 0 < host_spill - sumSpill estimates then
    match weightsOf probs availability (zeroObserved estimates observed) with
    | none => .error .numericError
    | some weights =>
      if weights.isEmpty then .ok estimates
      else if (weights.map Prod.snd).sum = 0 then .error .numericError
      else .ok (applyWeights estimates (host_spill - sumSpill estimates)
          (weights.map fun pw => (pw.1, pw.2 / (weights.map Prod.snd).sum)))
  else .ok estimates

/-- Class-level estimator: host-level solve, then the per-product loop,
then (when calibrate is set) the calibration step. -/
def estimate_class_level (observed availability probs : List (α × ℚ))
    (nofly_prob : ℚ) (calibrate : Bool) :
    Except MfrmError (List (α × Estimate)) :=
  match estimate_host_level observed availability probs nofly_prob with
  | none => .error .numericError
  | some (_, host_spill, host_recapture) =>
    match classLoop observed availability ((observed.map Prod.snd).sum)
        host_recapture (probs.map Prod.fst) with
    | .error e => .error e
    | .ok estimates =>
      if calibrate then
        calibrate_no_booking estimates observed availability probs host_spill
      else .ok estimates

/-- Choice probability model over the reals; none models the
ZeroDivisionError Python raises when market_share = 0 or the normalizing
denominator is zero (as happens on an empty utility mapping). -/
noncomputable def selection_probs {κ : Type} (utilities : List (κ × ℝ))
    (market_share : ℝ) : Option (List (κ × ℝ) × ℝ) :=
  if market_share = 0 then none
  else
    let exp_sum := (utilities.map fun pu => Real.exp pu.2).sum
    let exp_nofly_utility := exp_sum * (1 - market_share) / market_share
    if exp_sum + exp_nofly_utility = 0 then none
    else some
      (utilities.map fun pu => (pu.1, Real.exp pu.2 / (exp_sum + exp_nofly_utility)),
       exp_nofly_utility / (exp_sum + exp_nofly_utility))


/-- Spill field of the entry keyed k, 0 when the key is absent. -/
def oldSpill (es : List (α × Estimate)) (k : α) : ℚ :=
  match lookupQ es k with
  | some e => e.spill
  | none => 0

omit [DecidableEq α] in
theorem sumSpill_nil : sumSpill ([] : List (α × Estimate)) = 0 := rfl

omit [DecidableEq α] in
theorem sumSpill_cons (ke : α × Estimate) (l : List (α × Estimate)) :
    sumSpill (ke :: l) = ke.2.spill + sumSpill l := by
  simp [sumSpill]

theorem lookupQ_mem {β : Type} {es : List (α × β)} {k : α} {e : β}
    (h : lookupQ es k = some e) : (k, e) ∈ es := by
  induction es with
  | nil => simp [lookupQ] at h
  | cons kv rest ih =>
    obtain ⟨k1, v1⟩ := kv
    rw [lookupQ] at h
    split_ifs at h with hk
    · simp only [Option.some.injEq] at h
      simp [← hk, ← h]
    · exact List.mem_cons_of_mem _ (ih h)

theorem lookupQ_isSome_of_mem {β : Type} {es : List (α × β)} {k : α}
    (h : k ∈ es.map Prod.fst) : ∃ e, lookupQ es k = some e := by
  induction es with
  | nil => simp at h
  | cons kv rest ih =>
    rw [lookupQ]
    split_ifs with hk
    · exact ⟨kv.2, rfl⟩
    · apply ih
      simp only [List.map_cons, List.mem_cons] at h
      cases h with
      | inl h1 => exact absurd h1.symm hk
      | inr h2 => exact h2

theorem lookupQ_map_self {β : Type} (g : α → β) {keys : List α} {p : α}
    (hp : p ∈ keys) : lookupQ (keys.map fun k => (k, g k)) p = some (g p) := by
  induction keys with
  | nil => simp at hp
  | cons q rest ih =>
    simp only [List.map_cons]
    rw [lookupQ]
    split_ifs with hq
    · simp only at hq
      subst hq
      rfl
    · apply ih
      simp only at hq
      cases List.mem_cons.mp hp with
      | inl h1 => exact absurd h1.symm hq
      | inr h2 => exact h2

theorem updEst_map_fst (es : List (α × Estimate)) (p : α) (v : ℚ) :
    (updEst es p v).map Prod.fst = es.map Prod.fst := by
  unfold updEst
  rw [List.map_map]
  apply List.map_congr_left
  intro ke _
  by_cases hk : ke.1 = p <;> simp [hk]

theorem updEst_eq_self {es : List (α × Estimate)} {p : α} {v : ℚ}
    (hp : p ∉ es.map Prod.fst) : updEst es p v = es := by
  induction es with
  | nil => rfl
  | cons ke rest ih =>
    simp only [List.map_cons, List.mem_cons, not_or] at hp
    obtain ⟨h1, h2⟩ := hp
    have hk : ¬ ke.1 = p := fun hc => h1 hc.symm
    simp only [updEst, List.map_cons, if_neg hk]
    have := ih h2
    unfold updEst at this
    rw [this]

theorem lookupQ_updEst_ne {es : List (α × Estimate)} {p q : α} {v : ℚ}
    (hpq : q ≠ p) : lookupQ (updEst es p v) q = lookupQ es q := by
  induction es with
  | nil => rfl
  | cons ke rest ih =>
    by_cases hk : ke.1 = p
    · have h1 : updEst (ke :: rest) p v
          = (ke.1, ⟨v, v, ke.2.recapture⟩) :: updEst rest p v := by
        simp [updEst, hk]
      rw [h1, lookupQ, lookupQ]
      split_ifs with h2
      · exact absurd (h2.symm.trans hk) hpq
      · exact ih
    · have h1 : updEst (ke :: rest) p v = ke :: updEst rest p v := by
        simp [updEst, hk]
      rw [h1, lookupQ, lookupQ]
      split_ifs with h2
      · rfl
      · exact ih

theorem lookupQ_updEst_self {es : List (α × Estimate)} {p : α} {v : ℚ} :
    lookupQ (updEst es p v) p =
      (lookupQ es p).map fun e => (⟨v, v, e.recapture⟩ : Estimate) := by
  induction es with
  | nil => rfl
  | cons ke rest ih =>
    by_cases hk : ke.1 = p
    · have h1 : updEst (ke :: rest) p v
          = (ke.1, ⟨v, v, ke.2.recapture⟩) :: updEst rest p v := by
        simp [updEst, hk]
      rw [h1, lookupQ, lookupQ]
      simp [hk]
    · have h1 : updEst (ke :: rest) p v = ke :: updEst rest p v := by
        simp [updEst, hk]
      rw [h1, lookupQ, lookupQ]
      simp [hk, ih]

theorem sumSpill_updEst {es : List (α × Estimate)} {p : α} {v : ℚ}
    (hnd : (es.map Prod.fst).Nodup) (hp : p ∈ es.map Prod.fst) :
    sumSpill (updEst es p v) = sumSpill es - oldSpill es p + v := by
  induction es with
  | nil => simp at hp
  | cons ke rest ih =>
    rw [List.map_cons, List.nodup_cons] at hnd
    obtain ⟨hk1, hk2⟩ := hnd
    rw [List.map_cons] at hp
    by_cases hk : ke.1 = p
    · have h1 : updEst (ke :: rest) p v
          = (ke.1, ⟨v, v, ke.2.recapture⟩) :: updEst rest p v := by
        simp [updEst, hk]
      have h2 : updEst rest p v = rest := updEst_eq_self (hk ▸ hk1)
      have h3 : oldSpill (ke :: rest) p = ke.2.spill := by
        unfold oldSpill
        rw [lookupQ, if_pos hk]
      rw [h1, h2, h3, sumSpill_cons, sumSpill_cons]
      ring
    · have h1 : updEst (ke :: rest) p v = ke :: updEst rest p v := by
        simp [updEst, hk]
      have hp2 : p ∈ rest.map Prod.fst := by
        cases List.mem_cons.mp hp with
        | inl hcp => exact absurd hcp.symm hk
        | inr hcp => exact hcp
      have h3 : oldSpill (ke :: rest) p = oldSpill rest p := by
        unfold oldSpill
        rw [lookupQ, if_neg hk]
      rw [h1, h3, sumSpill_cons, sumSpill_cons, ih hk2 hp2]
      ring

theorem applyWeights_lookup_notMem {es : List (α × Estimate)} {u : ℚ}
    {ws : List (α × ℚ)} {q : α} (hq : q ∉ ws.map Prod.fst) :
    lookupQ (applyWeights es u ws) q = lookupQ es q := by
  induction ws generalizing es with
  | nil => rfl
  | cons pw rest ih =>
    rw [List.map_cons, List.mem_cons, not_or] at hq
    obtain ⟨h1, h2⟩ := hq
    rw [applyWeights, ih h2, lookupQ_updEst_ne h1]

theorem applyWeights_map_fst (es : List (α × Estimate)) (u : ℚ)
    (ws : List (α × ℚ)) :
    (applyWeights es u ws).map Prod.fst = es.map Prod.fst := by
  induction ws generalizing es with
  | nil => rfl
  | cons pw rest ih => rw [applyWeights, ih, updEst_map_fst]

theorem applyWeights_lookup_mem {es : List (α × Estimate)} {u : ℚ}
    {ws : List (α × ℚ)} {p : α} {w : ℚ}
    (hnd : (ws.map Prod.fst).Nodup) (hw : lookupQ ws p = some w) :
    lookupQ (applyWeights es u ws) p =
      (lookupQ es p).map fun e => (⟨u * w, u * w, e.recapture⟩ : Estimate) := by
  induction ws generalizing es with
  | nil => simp [lookupQ] at hw
  | cons pw rest ih =>
    rw [List.map_cons, List.nodup_cons] at hnd
    obtain ⟨h1, h2⟩ := hnd
    rw [applyWeights]
    rw [lookupQ] at hw
    split_ifs at hw with hp
    · simp only [Option.some.injEq] at hw
      subst hw
      rw [applyWeights_lookup_notMem (hp ▸ h1), hp, lookupQ_updEst_self]
    · rw [ih h2 hw, lookupQ_updEst_ne (fun hc => hp hc.symm)]

theorem sumSpill_applyWeights {es : List (α × Estimate)} {u : ℚ}
    {ws : List (α × ℚ)}
    (hes : (es.map Prod.fst).Nodup) (hws : (ws.map Prod.fst).Nodup)
    (hsub : ∀ k ∈ ws.map Prod.fst, k ∈ es.map Prod.fst) :
    sumSpill (applyWeights es u ws) =
      sumSpill es - (ws.map fun pw => oldSpill es pw.1).sum
        + u * (ws.map Prod.snd).sum := by
  induction ws generalizing es with
  | nil => simp [applyWeights]
  | cons pw rest ih =>
    rw [List.map_cons, List.nodup_cons] at hws
    obtain ⟨h1, h2⟩ := hws
    rw [applyWeights]
    have hmem : pw.1 ∈ es.map Prod.fst := hsub pw.1 (by simp)
    have hes2 : ((updEst es pw.1 (u * pw.2)).map Prod.fst).Nodup := by
      rw [updEst_map_fst]; exact hes
    have hsub2 : ∀ k ∈ rest.map Prod.fst,
        k ∈ (updEst es pw.1 (u * pw.2)).map Prod.fst := by
      intro k hk
      rw [updEst_map_fst]
      exact hsub k (by simp [hk])
    rw [ih hes2 h2 hsub2, sumSpill_updEst hes hmem]
    have hrw : (rest.map fun qw => oldSpill (updEst es pw.1 (u * pw.2)) qw.1).sum
        = (rest.map fun qw => oldSpill es qw.1).sum := by
      congr 1
      apply List.map_congr_left
      intro qw hqw
      unfold oldSpill
      have hmem2 : qw.1 ∈ rest.map Prod.fst := List.mem_map_of_mem Prod.fst hqw
      have hqp : qw.1 ≠ pw.1 := by
        intro hc
        rw [hc] at hmem2
        exact h1 hmem2
      rw [lookupQ_updEst_ne hqp]
    rw [hrw]
    simp only [List.map_cons, List.sum_cons]
    ring

theorem weightsOf_eq {probs availability : List (α × ℚ)} {keys : List α}
    {ws : List (α × ℚ)} (h : weightsOf probs availability keys = some ws) :
    ws = keys.map fun p => (p, dget probs p 0 * (1 - dget availability p 0)) := by
  induction keys generalizing ws with
  | nil =>
    rw [weightsOf] at h
    simp only [Option.some.injEq] at h
    simp [← h]
  | cons p ps ih =>
    rw [weightsOf] at h
    cases hp : lookupQ probs p with
    | none => rw [hp] at h; cases h
    | some pr =>
      rw [hp] at h
      cases hw : weightsOf probs availability ps with
      | none => rw [hw] at h; cases h
      | some ws2 =>
        rw [hw] at h
        simp only [Option.some.injEq] at h
        subst h
        rw [List.map_cons]
        congr 1
        · simp [dget, hp]
        · exact ih hw



theorem mem_le_sum_of_nonneg {l : List ℚ} (hnn : ∀ x ∈ l, 0 ≤ x) {v : ℚ}
    (hv : v ∈ l) : v ≤ l.sum := by
  induction l with
  | nil => simp at hv
  | cons x xs ih =>
    rw [List.sum_cons]
    cases List.mem_cons.mp hv with
    | inl h1 =>
      subst h1
      have : 0 ≤ xs.sum :=
        List.sum_nonneg fun y hy => hnn y (List.mem_cons_of_mem _ hy)
      linarith
    | inr h2 =>
      have hx : 0 ≤ x := hnn x (List.mem_cons_self _ _)
      have := ih (fun y hy => hnn y (List.mem_cons_of_mem _ hy)) h2
      linarith

theorem dget_nonneg {m : List (α × ℚ)} (hnn : ∀ kv ∈ m, 0 ≤ kv.2) (k : α) :
    0 ≤ dget m k 0 := by
  unfold dget
  cases hl : lookupQ m k with
  | none => simp
  | some v =>
    simp only [Option.getD_some]
    exact hnn (k, v) (lookupQ_mem hl)

theorem sum_pos_of_dget_pos {m : List (α × ℚ)} (hnn : ∀ kv ∈ m, 0 ≤ kv.2)
    {k : α} (hk : 0 < dget m k 0) : 0 < (m.map Prod.snd).sum := by
  unfold dget at hk
  cases hl : lookupQ m k with
  | none => rw [hl] at hk; simp at hk
  | some v =>
    rw [hl] at hk
    simp only [Option.getD_some] at hk
    have hmem : v ∈ m.map Prod.snd := List.mem_map_of_mem Prod.snd (lookupQ_mem hl)
    have hle : v ≤ (m.map Prod.snd).sum :=
      mem_le_sum_of_nonneg (by
        intro x hx
        obtain ⟨kv, hkv, hx2⟩ := List.mem_map.mp hx
        rw [← hx2]
        exact hnn kv hkv) hmem
    linarith

theorem demand_mass_balance_c_spec {ho co av hr d s rc : ℚ} (hco : co ≠ 0)
    (h : demand_mass_balance_c ho co av hr = some (d, s, rc)) :
    rc = hr * co / ho ∧ s = (1 - av) * d ∧ d - s = co - rc := by
  unfold demand_mass_balance_c at h
  rw [if_neg hco] at h
  split_ifs at h with hho
  cases hs : solve2 1 (-1) (-(1 - av)) 1 (co - hr * co / ho) 0 with
  | none => rw [hs] at h; cases h
  | some ds =>
    obtain ⟨d0, s0⟩ := ds
    rw [hs] at h
    simp only [Option.some.injEq, Prod.mk.injEq] at h
    obtain ⟨hd, hs2, hrc⟩ := h
    subst hd
    subst hs2
    subst hrc
    obtain ⟨h1, h2⟩ := solve2_spec _ _ _ _ _ _ _ _ hs
    refine ⟨rfl, by linarith, by linarith⟩

theorem demand_mass_balance_c_isSome {ho co av hr : ℚ} (hco : co ≠ 0)
    (hho : ho ≠ 0) (hav : av ≠ 0) :
    ∃ dsr, demand_mass_balance_c ho co av hr = some dsr := by
  unfold demand_mass_balance_c solve2
  rw [if_neg hco, if_neg hho]
  have hdet : ¬ ((1 : ℚ) * 1 - -1 * -(1 - av) = 0) := by
    intro hc
    apply hav
    linarith
  rw [if_neg hdet]
  exact ⟨_, rfl⟩

theorem classLoop_ok_keys {observed availability : List (α × ℚ)} {t hr : ℚ}
    {keys : List α} {es : List (α × Estimate)}
    (h : classLoop observed availability t hr keys = .ok es) :
    es.map Prod.fst = keys := by
  induction keys generalizing es with
  | nil =>
    rw [classLoop] at h
    simp only [Except.ok.injEq] at h
    subst h
    rfl
  | cons p ps ih =>
    rw [classLoop] at h
    split_ifs at h with h1 h2
    · cases hd : demand_mass_balance_c t (dget observed p 0)
          (dget availability p 0) hr with
      | none => rw [hd] at h; cases h
      | some dsr =>
        obtain ⟨d, s, r⟩ := dsr
        rw [hd] at h
        cases hc : classLoop observed availability t hr ps with
        | error e => rw [hc] at h; cases h
        | ok rest =>
          rw [hc] at h
          simp only [Except.ok.injEq] at h
          subst h
          rw [List.map_cons, ih hc]
    · cases hc : classLoop observed availability t hr ps with
      | error e => rw [hc] at h; cases h
      | ok rest =>
        rw [hc] at h
        simp only [Except.ok.injEq] at h
        subst h
        rw [List.map_cons, ih hc]

theorem classLoop_ok_lookup {observed availability : List (α × ℚ)} {t hr : ℚ}
    {keys : List α} {es : List (α × Estimate)}
    (h : classLoop observed availability t hr keys = .ok es)
    {p : α} {e : Estimate} (hp : lookupQ es p = some e) :
    (dget observed p 0 = 0 ∧ e = ⟨0, 0, 0⟩) ∨
      (dget observed p 0 ≠ 0 ∧
        demand_mass_balance_c t (dget observed p 0) (dget availability p 0) hr
          = some (e.demand, e.spill, e.recapture)) := by
  induction keys generalizing es with
  | nil =>
    rw [classLoop] at h
    simp only [Except.ok.injEq] at h
    subst h
    simp [lookupQ] at hp
  | cons q ps ih =>
    rw [classLoop] at h
    split_ifs at h with h1 h2
    · cases hd : demand_mass_balance_c t (dget observed q 0)
          (dget availability q 0) hr with
      | none => rw [hd] at h; cases h
      | some dsr =>
        obtain ⟨d, s, r⟩ := dsr
        rw [hd] at h
        cases hc : classLoop observed availability t hr ps with
        | error e2 => rw [hc] at h; cases h
        | ok rest =>
          rw [hc] at h
          simp only [Except.ok.injEq] at h
          subst h
          rw [lookupQ] at hp
          split_ifs at hp with hqp
          · simp only [Option.some.injEq] at hp
            subst hp
            subst hqp
            right
            exact ⟨h2, hd⟩
          · exact ih hc hp
    · cases hc : classLoop observed availability t hr ps with
      | error e2 => rw [hc] at h; cases h
      | ok rest =>
        rw [hc] at h
        simp only [Except.ok.injEq] at h
        subst h
        rw [lookupQ] at hp
        split_ifs at hp with hqp
        · simp only [Option.some.injEq] at hp
          subst hp
          subst hqp
          left
          exact ⟨by simpa using h2, rfl⟩
        · exact ih hc hp

theorem classLoop_error_invalid {observed availability : List (α × ℚ)}
    {t hr : ℚ} {keys : List α}
    (h : classLoop observed availability t hr keys = .error .invalidInput) :
    ∃ p ∈ keys, dget availability p 0 = 0 ∧ 0 < dget observed p 0 := by
  induction keys with
  | nil => rw [classLoop] at h; cases h
  | cons p ps ih =>
    rw [classLoop] at h
    split_ifs at h with h1 h2
    · exact ⟨p, by simp, h1⟩
    · cases hd : demand_mass_balance_c t (dget observed p 0)
          (dget availability p 0) hr with
      | none =>
        rw [hd] at h
        simp at h
      | some dsr =>
        obtain ⟨d, s, r⟩ := dsr
        rw [hd] at h
        cases hc : classLoop observed availability t hr ps with
        | error e2 =>
          rw [hc] at h
          simp only [Except.error.injEq] at h
          subst h
          obtain ⟨q, hq, hq2⟩ := ih hc
          exact ⟨q, List.mem_cons_of_mem _ hq, hq2⟩
        | ok rest => rw [hc] at h; cases h
    · cases hc : classLoop observed availability t hr ps with
      | error e2 =>
        rw [hc] at h
        simp only [Except.error.injEq] at h
        subst h
        obtain ⟨q, hq, hq2⟩ := ih hc
        exact ⟨q, List.mem_cons_of_mem _ hq, hq2⟩
      | ok rest => rw [hc] at h; cases h

theorem classLoop_invalid_of {observed availability : List (α × ℚ)} {hr : ℚ}
    (hnn : ∀ kv ∈ observed, 0 ≤ kv.2) {keys : List α}
    (hbad : ∃ p ∈ keys, dget availability p 0 = 0 ∧ 0 < dget observed p 0) :
    classLoop observed availability ((observed.map Prod.snd).sum) hr keys
      = .error .invalidInput := by
  induction keys with
  | nil => simp at hbad
  | cons p ps ih =>
    rw [classLoop]
    by_cases h1 : dget availability p 0 = 0 ∧ 0 < dget observed p 0
    · rw [if_pos h1]
    · rw [if_neg h1]
      obtain ⟨q, hq, hq2⟩ := hbad
      have hqps : q ∈ ps := by
        cases List.mem_cons.mp hq with
        | inl hc => subst hc; exact absurd hq2 h1
        | inr hc => exact hc
      have hrec := ih ⟨q, hqps, hq2⟩
      by_cases h2 : dget observed p 0 ≠ 0
      · rw [if_pos h2]
        have hod : 0 < dget observed p 0 :=
          lt_of_le_of_ne (dget_nonneg hnn p) (Ne.symm h2)
        have hav : dget availability p 0 ≠ 0 := fun hc => h1 ⟨hc, hod⟩
        have htot : (observed.map Prod.snd).sum ≠ 0 :=
          ne_of_gt (sum_pos_of_dget_pos hnn hod)
        obtain ⟨⟨d, s, r⟩, hd⟩ := demand_mass_balance_c_isSome h2 htot hav
        rw [hd, hrec]
      · rw [if_neg h2, hrec]



/-- Weight expression probs[p] * (1 - availability.get(p, 0)) used by the
calibration step, with dict indexing read as defaulted lookup. -/
def weightOf (probs availability : List (α × ℚ)) (p : α) : ℚ :=
  dget probs p 0 * (1 - dget availability p 0)

theorem sum_div_list {β K : Type} [DivisionRing K] (l : List β) (f : β → K)
    (c : K) :
    (l.map fun x => f x / c).sum = (l.map f).sum / c := by
  induction l with
  | nil => simp
  | cons x xs ih => simp [List.sum_cons, ih, add_div]

theorem mem_zeroObserved_iff {es : List (α × Estimate)}
    {observed : List (α × ℚ)} {k : α} :
    k ∈ zeroObserved es observed ↔
      k ∈ es.map Prod.fst ∧ dget observed k 0 = 0 := by
  simp [zeroObserved]

theorem weightsOf_eq_weightOf {probs availability : List (α × ℚ)}
    {keys : List α} {ws : List (α × ℚ)}
    (h : weightsOf probs availability keys = some ws) :
    ws = keys.map fun p => (p, weightOf probs availability p) :=
  weightsOf_eq h

theorem calibrate_unacc_nonpos {es : List (α × Estimate)}
    {observed availability probs : List (α × ℚ)} {hs : ℚ}
    (h : hs - sumSpill es ≤ 0) :
    calibrate_no_booking es observed availability probs hs = .ok es := by
  unfold calibrate_no_booking
  rw [if_neg (not_lt.mpr h)]

theorem calibrate_frame {es m : List (α × Estimate)}
    {observed availability probs : List (α × ℚ)} {hs : ℚ}
    (h : calibrate_no_booking es observed availability probs hs = .ok m)
    {p : α} (hp : dget observed p 0 ≠ 0) : lookupQ m p = lookupQ es p := by
  unfold calibrate_no_booking at h
  split_ifs at h with h1
  · cases hw : weightsOf probs availability (zeroObserved es observed) with
    | none => rw [hw] at h; cases h
    | some ws =>
      rw [hw] at h
      simp only [] at h
      split_ifs at h with h2 h3
      · simp only [Except.ok.injEq] at h
        subst h
        rfl
      · simp only [Except.ok.injEq] at h
        subst h
        apply applyWeights_lookup_notMem
        intro hmem
        rw [List.map_map] at hmem
        obtain ⟨pw, hpw, hpw2⟩ := List.mem_map.mp hmem
        have hws := weightsOf_eq_weightOf hw
        subst hws
        obtain ⟨q, hq, hq2⟩ := List.mem_map.mp hpw
        apply hp
        have hq3 : q = p := by
          rw [← hq2] at hpw2
          simpa using hpw2
        rw [← hq3]
        exact (mem_zeroObserved_iff.mp hq).2
  · simp only [Except.ok.injEq] at h
    subst h
    rfl

theorem calibrate_no_invalid {es : List (α × Estimate)}
    {observed availability probs : List (α × ℚ)} {hs : ℚ} :
    calibrate_no_booking es observed availability probs hs
      ≠ .error .invalidInput := by
  unfold calibrate_no_booking
  split_ifs with h1
  · cases hw : weightsOf probs availability (zeroObserved es observed) with
    | none => simp [hw]
    | some ws =>
      simp only []
      split_ifs <;> simp
  · simp

theorem calibrate_success_form {es m : List (α × Estimate)}
    {observed availability probs : List (α × ℚ)} {hs : ℚ}
    (hu : 0 < hs - sumSpill es)
    (hz : zeroObserved es observed ≠ [])
    (h : calibrate_no_booking es observed availability probs hs = .ok m) :
    weightsOf probs availability (zeroObserved es observed)
        = some ((zeroObserved es observed).map fun p =>
            (p, weightOf probs availability p)) ∧
      ((zeroObserved es observed).map (weightOf probs availability)).sum ≠ 0 ∧
      m = applyWeights es (hs - sumSpill es)
        ((zeroObserved es observed).map fun p =>
          (p, weightOf probs availability p
            / ((zeroObserved es observed).map (weightOf probs availability)).sum)) := by
  unfold calibrate_no_booking at h
  rw [if_pos hu] at h
  cases hw : weightsOf probs availability (zeroObserved es observed) with
  | none => rw [hw] at h; cases h
  | some ws =>
    rw [hw] at h
    have hws := weightsOf_eq_weightOf hw
    subst hws
    have hsnd : ((zeroObserved es observed).map fun p =>
        (p, weightOf probs availability p)).map Prod.snd
          = (zeroObserved es observed).map (weightOf probs availability) := by
      rw [List.map_map]
      rfl
    simp only [] at h
    split_ifs at h with h2 h3
    · exfalso
      apply hz
      rw [List.isEmpty_iff] at h2
      exact List.map_eq_nil_iff.mp h2
    · refine ⟨rfl, ?_, ?_⟩
      · rw [hsnd] at h3
        exact h3
      · simp only [Except.ok.injEq] at h
        rw [← h]
        congr 1
        rw [hsnd, List.map_map]
        rfl

theorem zeroObserved_nodup {es : List (α × Estimate)}
    {observed : List (α × ℚ)} (hnd : (es.map Prod.fst).Nodup) :
    (zeroObserved es observed).Nodup := by
  unfold zeroObserved
  exact hnd.filter _

theorem calibrate_conservation {es m : List (α × Estimate)}
    {observed availability probs : List (α × ℚ)} {hs : ℚ}
    (hnd : (es.map Prod.fst).Nodup)
    (h0 : ∀ ke ∈ es, dget observed ke.1 0 = 0 → ke.2.spill = 0)
    (hz : zeroObserved es observed ≠ [])
    (hu : 0 < hs - sumSpill es)
    (h : calibrate_no_booking es observed availability probs hs = .ok m) :
    sumSpill m = hs := by
  obtain ⟨hw, hW, hm⟩ := calibrate_success_form hu hz h
  set zs := zeroObserved es observed with hzs
  set W := (zs.map (weightOf probs availability)).sum with hWdef
  have hkeys : ((zs.map fun p =>
      (p, weightOf probs availability p / W)).map Prod.fst) = zs := by
    rw [List.map_map]
    exact List.map_id _
  have hndw : ((zs.map fun p =>
      (p, weightOf probs availability p / W)).map Prod.fst).Nodup := by
    rw [hkeys]
    exact zeroObserved_nodup hnd
  have hsub : ∀ k ∈ (zs.map fun p =>
      (p, weightOf probs availability p / W)).map Prod.fst,
      k ∈ es.map Prod.fst := by
    intro k hk
    rw [hkeys] at hk
    exact (mem_zeroObserved_iff.mp hk).1
  have hmap2 : ((zs.map fun p =>
      (p, weightOf probs availability p / W)).map fun pw => oldSpill es pw.1)
        = zs.map fun q => oldSpill es q := by
    rw [List.map_map]
    rfl
  have hold : (zs.map fun q => oldSpill es q).sum = 0 := by
    apply List.sum_eq_zero
    intro x hx
    obtain ⟨q, hq, hq2⟩ := List.mem_map.mp hx
    rw [← hq2]
    have hq0 : dget observed q 0 = 0 := (mem_zeroObserved_iff.mp hq).2
    unfold oldSpill
    cases hl : lookupQ es q with
    | none => rfl
    | some e => exact h0 (q, e) (lookupQ_mem hl) hq0
  have hwsum : ((zs.map fun p =>
      (p, weightOf probs availability p / W)).map Prod.snd).sum = 1 := by
    rw [List.map_map]
    have hcomp : (Prod.snd ∘ fun p => (p, weightOf probs availability p / W))
        = fun p => weightOf probs availability p / W := rfl
    rw [hcomp, sum_div_list, ← hWdef, div_self hW]
  rw [hm, sumSpill_applyWeights hnd hndw hsub, hmap2, hold, hwsum]
  ring

theorem calibrate_redistribution {es m : List (α × Estimate)}
    {observed availability probs : List (α × ℚ)} {hs : ℚ}
    (hnd : (es.map Prod.fst).Nodup)
    (hu : 0 < hs - sumSpill es)
    (hz : zeroObserved es observed ≠ [])
    (h : calibrate_no_booking es observed availability probs hs = .ok m)
    {p : α} (hp : p ∈ zeroObserved es observed) {e : Estimate}
    (he : lookupQ es p = some e) :
    lookupQ m p = some
      ⟨(hs - sumSpill es) * (weightOf probs availability p
          / ((zeroObserved es observed).map (weightOf probs availability)).sum),
        (hs - sumSpill es) * (weightOf probs availability p
          / ((zeroObserved es observed).map (weightOf probs availability)).sum),
        e.recapture⟩ := by
  obtain ⟨hw, hW, hm⟩ := calibrate_success_form hu hz h
  set zs := zeroObserved es observed with hzs
  set W := (zs.map (weightOf probs availability)).sum with hWdef
  have hkeys : ((zs.map fun q =>
      (q, weightOf probs availability q / W)).map Prod.fst) = zs := by
    rw [List.map_map]
    exact List.map_id _
  have hndw : ((zs.map fun q =>
      (q, weightOf probs availability q / W)).map Prod.fst).Nodup := by
    rw [hkeys]
    exact zeroObserved_nodup hnd
  have hlook : lookupQ (zs.map fun q =>
      (q, weightOf probs availability q / W)) p
        = some (weightOf probs availability p / W) :=
    lookupQ_map_self (fun q => weightOf probs availability q / W) hp
  rw [hm, applyWeights_lookup_mem hndw hlook, he]
  rfl



theorem ecl_ok_parts {observed availability probs : List (α × ℚ)}
    {nofly_prob : ℚ} {cal : Bool} {m : List (α × Estimate)} {hd hs hr : ℚ}
    (hhost : estimate_host_level observed availability probs nofly_prob
      = some (hd, hs, hr))
    (hm : estimate_class_level observed availability probs nofly_prob cal = .ok m) :
    ∃ es0, classLoop observed availability ((observed.map Prod.snd).sum) hr
        (probs.map Prod.fst) = .ok es0 ∧
      ((cal = true ∧
          calibrate_no_booking es0 observed availability probs hs = .ok m) ∨
        (cal = false ∧ m = es0)) := by
  unfold estimate_class_level at hm
  rw [hhost] at hm
  simp only [] at hm
  cases hc : classLoop observed availability ((observed.map Prod.snd).sum) hr
      (probs.map Prod.fst) with
  | error e2 => rw [hc] at hm; cases hm
  | ok es0 =>
    rw [hc] at hm
    cases cal with
    | true =>
      refine ⟨es0, rfl, Or.inl ⟨rfl, ?_⟩⟩
      simpa using hm
    | false =>
      refine ⟨es0, rfl, Or.inr ⟨rfl, ?_⟩⟩
      simp only [Bool.false_eq_true, if_false, Except.ok.injEq] at hm
      exact hm.symm

/-- C1: every triple (demand, spill, recapture) returned by
demand_mass_balance_h satisfies demand - spill + recapture = odemand,
spill = close_prob * demand and recapture = recapture_rate * spill, exactly
in the rational model. -/
theorem claim1_host_mass_balance (odemand close_prob recapture_rate d s r : ℚ)
    (h : demand_mass_balance_h odemand close_prob recapture_rate = some (d, s, r)) :
    d - s + r = odemand ∧ s = close_prob * d ∧ r = recapture_rate * s := by
  obtain ⟨h1, h2, h3⟩ := solve3_spec _ _ _ _ _ _ _ _ _ _ _ _ _ _ _ h
  refine ⟨by linarith, by linarith, by linarith⟩

/-- Witness for C1 at odemand 10, close_prob 1/2, recapture_rate 1/2, whose
solution is (40/3, 20/3, 10/3). -/
theorem claim1_witness :
    (40 / 3 : ℚ) - 20 / 3 + 10 / 3 = 10 ∧ (20 / 3 : ℚ) = 1 / 2 * (40 / 3) ∧
      (10 / 3 : ℚ) = 1 / 2 * (20 / 3) :=
  claim1_host_mass_balance 10 (1 / 2) (1 / 2) (40 / 3) (20 / 3) (10 / 3)
    (by norm_num [demand_mass_balance_h, solve3, det3])

/-- C2: a solved class-level triple satisfies
recapture = host_recapture * class_odemand / host_odemand,
spill = (1 - avail) * demand and demand - spill = class_odemand - recapture;
consequently every estimate_class_level entry for a product with non-zero
observed demand satisfies the class-level mass balance. -/
theorem claim2_class_mass_balance :
    (∀ ho co av hr d s rc : ℚ, co ≠ 0 →
      demand_mass_balance_c ho co av hr = some (d, s, rc) →
      rc = hr * co / ho ∧ s = (1 - av) * d ∧ d - s = co - rc) ∧
    (∀ (observed availability probs : List (α × ℚ)) (nofly_prob : ℚ)
      (cal : Bool) (m : List (α × Estimate)) (hd hs hr : ℚ),
      estimate_host_level observed availability probs nofly_prob
        = some (hd, hs, hr) →
      estimate_class_level observed availability probs nofly_prob cal = .ok m →
      ∀ (p : α) (e : Estimate), lookupQ m p = some e → dget observed p 0 ≠ 0 →
        e.recapture = hr * dget observed p 0 / (observed.map Prod.snd).sum ∧
        e.spill = (1 - dget availability p 0) * e.demand ∧
        e.demand - e.spill + e.recapture = dget observed p 0) := by
  constructor
  · intro ho co av hr d s rc hco h
    exact demand_mass_balance_c_spec hco h
  · intro observed availability probs nofly_prob cal m hd hs hr hhost hm p e hp hod
    obtain ⟨es0, hc, hrest⟩ := ecl_ok_parts hhost hm
    have hlm : lookupQ m p = lookupQ es0 p := by
      cases hrest with
      | inl h5 => exact calibrate_frame h5.2 hod
      | inr h5 => rw [h5.2]
    rw [hlm] at hp
    cases classLoop_ok_lookup hc hp with
    | inl h6 => exact absurd h6.1 hod
    | inr h6 =>
      obtain ⟨h7, h8, h9⟩ := demand_mass_balance_c_spec hod h6.2
      exact ⟨h7, h8, by linarith⟩

/-- Witness for C2: part one at (10, 5, 1/2, 2) solved by (8, 4, 1), part
two on a one-product pipeline whose class estimate is (10, 5, 5). -/
theorem claim2_witness :
    ((1 : ℚ) = 2 * 5 / 10 ∧ (4 : ℚ) = (1 - 1 / 2) * 8 ∧ (8 : ℚ) - 4 = 5 - 1) ∧
    ((⟨10, 5, 5⟩ : Estimate).recapture
        = 5 * dget [((0 : ℕ), (10 : ℚ))] 0 0
          / (([((0 : ℕ), (10 : ℚ))]).map Prod.snd).sum ∧
      (⟨10, 5, 5⟩ : Estimate).spill
        = (1 - dget [((0 : ℕ), (1 / 2 : ℚ))] 0 0) * (⟨10, 5, 5⟩ : Estimate).demand ∧
      (⟨10, 5, 5⟩ : Estimate).demand - (⟨10, 5, 5⟩ : Estimate).spill
          + (⟨10, 5, 5⟩ : Estimate).recapture = dget [((0 : ℕ), (10 : ℚ))] 0 0) :=
  ⟨(claim2_class_mass_balance (α := ℕ)).1 10 5 (1 / 2) 2 8 4 1 (by norm_num)
     (by norm_num [demand_mass_balance_c, solve2]),
   (claim2_class_mass_balance (α := ℕ)).2 [(0, 10)] [(0, 1 / 2)] [(0, 1 / 2)]
     (1 / 4) false [(0, ⟨10, 5, 5⟩)] 15 10 5
     (by norm_num [estimate_host_level, demand_mass_balance_h, solve3, det3, dget, lookupQ])
     (by norm_num [estimate_class_level, estimate_host_level, demand_mass_balance_h,
      solve3, det3, classLoop, demand_mass_balance_c, solve2,
      calibrate_no_booking, zeroObserved, weightsOf, updEst, applyWeights,
      sumSpill, dget, lookupQ])
     0 ⟨10, 5, 5⟩ (by norm_num [lookupQ]) (by norm_num [dget, lookupQ])⟩

/-- Counterexample to C3 as stated: product 1 has observed demand 10 > 0 and
availability 0, but is absent from probs, so estimate_class_level completes
without raising and returns an estimate mapping. -/
theorem claim3_counterexample :
    0 < dget [((1 : ℕ), (10 : ℚ))] 1 0 ∧
    dget ([((0 : ℕ), (1 / 2 : ℚ)), (1, 0)]) 1 0 = 0 ∧
    estimate_class_level [((1 : ℕ), (10 : ℚ))] [(0, 1 / 2), (1, 0)] [(0, 1 / 2)]
        (1 / 4) true = .ok [(0, ⟨10, 10, 0⟩)] :=
  ⟨by norm_num [dget, lookupQ], by norm_num [dget, lookupQ], by
    norm_num [estimate_class_level, estimate_host_level, demand_mass_balance_h,
      solve3, det3, classLoop, demand_mass_balance_c, solve2,
      calibrate_no_booking, zeroObserved, weightsOf, updEst, applyWeights,
      sumSpill, dget, lookupQ]⟩

/-- C3 (amended): with nonnegative observed demands and a successful
host-level stage, estimate_class_level raises InvalidInputParameters exactly
when some product of probs has availability 0 and observed demand > 0;
offending products outside probs are not detected. -/
theorem claim3_invalid_iff {observed availability probs : List (α × ℚ)}
    {nofly_prob : ℚ} {cal : Bool} {hd hs hr : ℚ}
    (hnn : ∀ kv ∈ observed, 0 ≤ kv.2)
    (hhost : estimate_host_level observed availability probs nofly_prob
      = some (hd, hs, hr)) :
    estimate_class_level observed availability probs nofly_prob cal
        = .error .invalidInput ↔
      ∃ p ∈ probs.map Prod.fst,
        dget availability p 0 = 0 ∧ 0 < dget observed p 0 := by
  unfold estimate_class_level
  rw [hhost]
  simp only []
  constructor
  · intro h
    cases hc : classLoop observed availability ((observed.map Prod.snd).sum) hr
        (probs.map Prod.fst) with
    | error e2 =>
      rw [hc] at h
      have he2 : e2 = .invalidInput := by simpa using h
      subst he2
      exact classLoop_error_invalid hc
    | ok es0 =>
      rw [hc] at h
      exfalso
      cases cal with
      | false => simp at h
      | true =>
        exact absurd
          ((by simpa using h :
            calibrate_no_booking es0 observed availability probs hs
              = .error .invalidInput))
          calibrate_no_invalid
  · intro hbad
    rw [classLoop_invalid_of hnn hbad]

/-- Witness for C3: a product of probs with availability 0 (by default) and
observed demand 3 makes the call raise InvalidInputParameters. -/
theorem claim3_witness :
    estimate_class_level [((1 : ℕ), (3 : ℚ))] [(0, 1 / 2)] [(0, 1 / 2), (1, 1 / 4)]
        (1 / 4) true = .error .invalidInput :=
  (claim3_invalid_iff (by norm_num [List.forall_mem_cons])
    (by norm_num [estimate_host_level, demand_mass_balance_h, solve3, det3,
        dget, lookupQ] :
      estimate_host_level [((1 : ℕ), (3 : ℚ))] [(0, 1 / 2)]
        [(0, 1 / 2), (1, 1 / 4)] (1 / 4) = some (9 / 2, 3, 3 / 2))).mpr
    ⟨1, by decide, by norm_num [dget, lookupQ], by norm_num [dget, lookupQ]⟩


/-- Counterexample to C4 as stated: a zero-observed product with non-zero
input spill (demand 0, spill 5).  Unaccounted spill is 6 - 5 = 1 > 0, the
call succeeds, but the post-calibration spills sum to 1, not host_spill 6. -/
theorem claim4_counterexample :
    0 < (6 : ℚ) - sumSpill [((0 : ℕ), (⟨0, 5, 0⟩ : Estimate))] ∧
    calibrate_no_booking [((0 : ℕ), (⟨0, 5, 0⟩ : Estimate))] [] [] [(0, 1 / 2)] 6
      = .ok [(0, ⟨1, 1, 0⟩)] ∧
    sumSpill [((0 : ℕ), (⟨1, 1, 0⟩ : Estimate))] ≠ 6 :=
  ⟨by norm_num [sumSpill], by
    norm_num [calibrate_no_booking, zeroObserved, weightsOf, updEst,
      applyWeights, sumSpill, dget, lookupQ],
    by norm_num [sumSpill]⟩

/-- C4 (amended): when the estimate keys are distinct, every zero-observed
key has input spill 0 (as estimate_class_level guarantees), some estimate
key has observed demand 0, unaccounted spill is positive and the call
returns a mapping, the post-calibration spills sum exactly to host_spill;
when unaccounted spill is nonpositive the input estimates are returned
unchanged. -/
theorem claim4_calibration_conservation {es m : List (α × Estimate)}
    {observed availability probs : List (α × ℚ)} {hs : ℚ}
    (hnd : (es.map Prod.fst).Nodup)
    (h0 : ∀ ke ∈ es, dget observed ke.1 0 = 0 → ke.2.spill = 0)
    (hz : zeroObserved es observed ≠ []) :
    (0 < hs - sumSpill es →
      calibrate_no_booking es observed availability probs hs = .ok m →
      sumSpill m = hs) ∧
    (hs - sumSpill es ≤ 0 →
      calibrate_no_booking es observed availability probs hs = .ok es) := by
  constructor
  · intro hu h
    exact calibrate_conservation hnd h0 hz hu h
  · intro hle
    exact calibrate_unacc_nonpos hle

/-- Witness for C4 on estimates [(0,(0,0,0)), (1,(3,2,1))] with observed
demand only on key 1: host_spill 3 redistributes 1 onto key 0 and the new
spills sum to 3; host_spill 1 leaves the estimates unchanged. -/
theorem claim4_witness :
    sumSpill [((0 : ℕ), (⟨1, 1, 0⟩ : Estimate)), (1, ⟨3, 2, 1⟩)] = 3 ∧
    calibrate_no_booking [((0 : ℕ), (⟨0, 0, 0⟩ : Estimate)), (1, ⟨3, 2, 1⟩)]
        [(1, 4)] [] [(0, 1 / 2)] 1
      = .ok [((0 : ℕ), (⟨0, 0, 0⟩ : Estimate)), (1, ⟨3, 2, 1⟩)] :=
  ⟨(@claim4_calibration_conservation ℕ _
      [((0 : ℕ), ⟨0, 0, 0⟩), (1, ⟨3, 2, 1⟩)]
      [((0 : ℕ), ⟨1, 1, 0⟩), (1, ⟨3, 2, 1⟩)] [(1, 4)] [] [(0, 1 / 2)] 3
      (by decide)
      (by norm_num [List.forall_mem_cons, dget, lookupQ])
      (by norm_num [zeroObserved, dget, lookupQ])).1
    (by norm_num [sumSpill])
    (by norm_num [calibrate_no_booking, zeroObserved, weightsOf, updEst,
      applyWeights, sumSpill, dget, lookupQ]),
   (@claim4_calibration_conservation ℕ _
      [((0 : ℕ), ⟨0, 0, 0⟩), (1, ⟨3, 2, 1⟩)]
      [((0 : ℕ), ⟨0, 0, 0⟩), (1, ⟨3, 2, 1⟩)] [(1, 4)] [] [(0, 1 / 2)] 1
      (by decide)
      (by norm_num [List.forall_mem_cons, dget, lookupQ])
      (by norm_num [zeroObserved, dget, lookupQ])).2
    (by norm_num [sumSpill])⟩

/-- Counterexample to C5 as stated: a zero-observed product whose input
estimate has recapture 1 keeps recapture 1 after redistribution, so
recapture is not 0 for redistributed products in general. -/
theorem claim5_counterexample :
    0 < (2 : ℚ) - sumSpill [((0 : ℕ), (⟨0, 0, 1⟩ : Estimate))] ∧
    calibrate_no_booking [((0 : ℕ), (⟨0, 0, 1⟩ : Estimate))] [] [] [(0, 1 / 2)] 2
      = .ok [(0, ⟨2, 2, 1⟩)] ∧
    (⟨2, 2, 1⟩ : Estimate).recapture ≠ 0 :=
  ⟨by norm_num [sumSpill], by
    norm_num [calibrate_no_booking, zeroObserved, weightsOf, updEst,
      applyWeights, sumSpill, dget, lookupQ],
    by norm_num⟩

/-- C5 (amended): when redistribution happens (positive unaccounted spill,
nonempty zero-observed subset, distinct estimate keys, successful call),
every zero-observed product receives demand and spill equal to the
unaccounted spill times its normalized weight
probs[p] * (1 - availability[p]) / sum of weights, its recapture is left
unchanged (0 whenever the input recapture was 0), and the redistributed
spills sum exactly to the unaccounted spill. -/
theorem claim5_calibration_weighting {es m : List (α × Estimate)}
    {observed availability probs : List (α × ℚ)} {hs : ℚ}
    (hnd : (es.map Prod.fst).Nodup)
    (hu : 0 < hs - sumSpill es)
    (hz : zeroObserved es observed ≠ [])
    (h : calibrate_no_booking es observed availability probs hs = .ok m) :
    (∀ p ∈ zeroObserved es observed, ∀ e : Estimate, lookupQ es p = some e →
      lookupQ m p = some
        ⟨(hs - sumSpill es) * (weightOf probs availability p
            / ((zeroObserved es observed).map (weightOf probs availability)).sum),
          (hs - sumSpill es) * (weightOf probs availability p
            / ((zeroObserved es observed).map (weightOf probs availability)).sum),
          e.recapture⟩) ∧
    ((zeroObserved es observed).map fun p => (hs - sumSpill es)
        * (weightOf probs availability p
          / ((zeroObserved es observed).map (weightOf probs availability)).sum)).sum
      = hs - sumSpill es := by
  constructor
  · intro p hp e he
    exact calibrate_redistribution hnd hu hz h hp he
  · obtain ⟨hw, hW, hm⟩ := calibrate_success_form hu hz h
    rw [List.sum_map_mul_left, sum_div_list, div_self hW, mul_one]

/-- Witness for C5 on a single zero-observed product with weight 1/2: it
receives demand and spill 2 * ((1/2) / (1/2)) = 2 and the redistributed
spill sums to the whole unaccounted spill 2. -/
theorem claim5_witness :
    lookupQ [((0 : ℕ), (⟨2, 2, 0⟩ : Estimate))] 0 = some
      ⟨((2 : ℚ) - sumSpill [((0 : ℕ), (⟨0, 0, 0⟩ : Estimate))])
          * (weightOf [(0, 1 / 2)] [] 0
            / ((zeroObserved [((0 : ℕ), (⟨0, 0, 0⟩ : Estimate))]
              ([] : List (ℕ × ℚ))).map (weightOf [(0, 1 / 2)] [])).sum),
        ((2 : ℚ) - sumSpill [((0 : ℕ), (⟨0, 0, 0⟩ : Estimate))])
          * (weightOf [(0, 1 / 2)] [] 0
            / ((zeroObserved [((0 : ℕ), (⟨0, 0, 0⟩ : Estimate))]
              ([] : List (ℕ × ℚ))).map (weightOf [(0, 1 / 2)] [])).sum),
        (⟨0, 0, 0⟩ : Estimate).recapture⟩ ∧
    ((zeroObserved [((0 : ℕ), (⟨0, 0, 0⟩ : Estimate))] ([] : List (ℕ × ℚ))).map
        fun p => ((2 : ℚ) - sumSpill [((0 : ℕ), (⟨0, 0, 0⟩ : Estimate))])
          * (weightOf [(0, 1 / 2)] [] p
            / ((zeroObserved [((0 : ℕ), (⟨0, 0, 0⟩ : Estimate))]
              ([] : List (ℕ × ℚ))).map (weightOf [(0, 1 / 2)] [])).sum)).sum
      = 2 - sumSpill [((0 : ℕ), (⟨0, 0, 0⟩ : Estimate))] :=
  ⟨(@claim5_calibration_weighting ℕ _ [((0 : ℕ), ⟨0, 0, 0⟩)]
      [((0 : ℕ), ⟨2, 2, 0⟩)] [] [] [(0, 1 / 2)] 2
      (by decide) (by norm_num [sumSpill])
      (by norm_num [zeroObserved, dget, lookupQ])
      (by norm_num [calibrate_no_booking, zeroObserved, weightsOf, updEst,
        applyWeights, sumSpill, dget, lookupQ])).1
    0 (by norm_num [zeroObserved, dget, lookupQ]) ⟨0, 0, 0⟩ (by norm_num [lookupQ]),
   (@claim5_calibration_weighting ℕ _ [((0 : ℕ), ⟨0, 0, 0⟩)]
      [((0 : ℕ), ⟨2, 2, 0⟩)] [] [] [(0, 1 / 2)] 2
      (by decide) (by norm_num [sumSpill])
      (by norm_num [zeroObserved, dget, lookupQ])
      (by norm_num [calibrate_no_booking, zeroObserved, weightsOf, updEst,
        applyWeights, sumSpill, dget, lookupQ])).2⟩


/-- C8: calibrate_no_booking never changes the entry of a product whose
observed demand is non-zero: whenever it returns a mapping, the entry of
every such product equals the input entry (the input itself is a value and
is never mutated in this model, matching the source's deepcopy). -/
theorem claim8_frame {es m : List (α × Estimate)}
    {observed availability probs : List (α × ℚ)} {hs : ℚ}
    (h : calibrate_no_booking es observed availability probs hs = .ok m)
    (p : α) (hp : dget observed p 0 ≠ 0) :
    lookupQ m p = lookupQ es p :=
  calibrate_frame h hp

/-- Witness for C8: redistribution onto key 0 leaves key 1 (observed
demand 7) with its input estimate (5, 2, 1). -/
theorem claim8_witness :
    lookupQ [((0 : ℕ), (⟨2, 2, 0⟩ : Estimate)), (1, ⟨5, 2, 1⟩)] 1
      = lookupQ [((0 : ℕ), (⟨0, 0, 0⟩ : Estimate)), (1, ⟨5, 2, 1⟩)] 1 :=
  claim8_frame
    (by norm_num [calibrate_no_booking, zeroObserved, weightsOf, updEst,
      applyWeights, sumSpill, dget, lookupQ] :
      calibrate_no_booking [((0 : ℕ), (⟨0, 0, 0⟩ : Estimate)), (1, ⟨5, 2, 1⟩)]
        [(1, 7)] [] [(0, 1 / 2)] 4 = .ok [(0, ⟨2, 2, 0⟩), (1, ⟨5, 2, 1⟩)])
    1 (by norm_num [dget, lookupQ])

/-- C9: with calibrate disabled, every product of probs whose observed
demand is 0 (also when absent from the observed mapping) is estimated as
exactly (0, 0, 0). -/
theorem claim9_zero_default {observed availability probs : List (α × ℚ)}
    {nofly_prob : ℚ} {m : List (α × Estimate)}
    (hm : estimate_class_level observed availability probs nofly_prob false
      = .ok m)
    (p : α) (hp : p ∈ probs.map Prod.fst) (h0 : dget observed p 0 = 0) :
    lookupQ m p = some ⟨0, 0, 0⟩ := by
  cases hh : estimate_host_level observed availability probs nofly_prob with
  | none =>
    unfold estimate_class_level at hm
    rw [hh] at hm
    cases hm
  | some t =>
    obtain ⟨hd, hs, hr⟩ := t
    obtain ⟨es0, hc, hrest⟩ := ecl_ok_parts hh hm
    cases hrest with
    | inl h5 => exact absurd h5.1 (by simp)
    | inr h5 =>
      rw [h5.2]
      have hkeys := classLoop_ok_keys hc
      have hpm : p ∈ es0.map Prod.fst := by rw [hkeys]; exact hp
      obtain ⟨e, he⟩ := lookupQ_isSome_of_mem hpm
      cases classLoop_ok_lookup hc he with
      | inl h6 => rw [he, h6.2]
      | inr h6 => exact absurd h0 h6.1

/-- Witness for C9: product 1 of probs is absent from observed and gets
estimate (0, 0, 0) with calibrate disabled. -/
theorem claim9_witness :
    lookupQ [((0 : ℕ), (⟨10, 5, 5⟩ : Estimate)), (1, ⟨0, 0, 0⟩)] 1
      = some ⟨0, 0, 0⟩ :=
  claim9_zero_default
    (by norm_num [estimate_class_level, estimate_host_level,
      demand_mass_balance_h, solve3, det3, classLoop, demand_mass_balance_c,
      solve2, dget, lookupQ] :
      estimate_class_level [((0 : ℕ), (10 : ℚ))] [(0, 1 / 2)]
        [(0, 1 / 2), (1, 1 / 4)] (1 / 4) false
        = .ok [(0, ⟨10, 5, 5⟩), (1, ⟨0, 0, 0⟩)])
    1 (by decide) (by norm_num [dget, lookupQ])

/-- Counterexample to C10 as stated: unaccounted spill 1 > 0 with no
zero-observed estimate key; the normalization comprehension is empty, no
division is executed, and the call returns the estimates unchanged instead
of failing. -/
theorem claim10_counterexample :
    0 < (3 : ℚ) - sumSpill [((0 : ℕ), (⟨0, 2, 0⟩ : Estimate))] ∧
    zeroObserved [((0 : ℕ), (⟨0, 2, 0⟩ : Estimate))] [(0, 5)] = [] ∧
    calibrate_no_booking [((0 : ℕ), (⟨0, 2, 0⟩ : Estimate))] [(0, 5)] [] [] 3
      = .ok [(0, ⟨0, 2, 0⟩)] :=
  ⟨by norm_num [sumSpill], by norm_num [zeroObserved, dget, lookupQ], by
    norm_num [calibrate_no_booking, zeroObserved, weightsOf, updEst,
      applyWeights, sumSpill, dget, lookupQ]⟩

/-- C10 (amended): with positive unaccounted spill, the normalization
division is reached with a zero divisor exactly in the nonempty case: when
the zero-observed subset is nonempty and its weights sum to 0 the call
fails with a numeric error, while with no zero-observed estimate key the
empty comprehension performs no division and the call returns the
estimates unchanged. -/
theorem claim10_zero_divisor :
    (∀ (es : List (α × Estimate)) (observed availability probs : List (α × ℚ))
      (hs : ℚ) (ws : List (α × ℚ)),
      0 < hs - sumSpill es →
      zeroObserved es observed ≠ [] →
      weightsOf probs availability (zeroObserved es observed) = some ws →
      (ws.map Prod.snd).sum = 0 →
      calibrate_no_booking es observed availability probs hs
        = .error .numericError) ∧
    (∀ (es : List (α × Estimate)) (observed availability probs : List (α × ℚ))
      (hs : ℚ),
      0 < hs - sumSpill es →
      zeroObserved es observed = [] →
      calibrate_no_booking es observed availability probs hs = .ok es) := by
  constructor
  · intro es observed availability probs hs ws hu hz hw hsum
    unfold calibrate_no_booking
    rw [if_pos hu, hw]
    simp only []
    have hne : ¬ (ws.isEmpty = true) := by
      rw [weightsOf_eq_weightOf hw]
      simp only [List.isEmpty_iff, List.map_eq_nil_iff]
      exact hz
    rw [if_neg hne, if_pos hsum]
  · intro es observed availability probs hs hu hz
    unfold calibrate_no_booking
    rw [if_pos hu, hz]
    have hwnil : weightsOf probs availability ([] : List α) = some [] := rfl
    rw [hwnil]
    simp

/-- Witness for C10: a zero-observed product with selection probability 0
gives weights summing to 0 and a numeric failure; with no zero-observed
key the same function returns its input. -/
theorem claim10_witness :
    calibrate_no_booking [((0 : ℕ), (⟨0, 0, 0⟩ : Estimate))] [] [] [(0, 0)] 1
      = .error .numericError ∧
    calibrate_no_booking [((0 : ℕ), (⟨0, 2, 0⟩ : Estimate))] [(0, 5)] [] [] 3
      = .ok [(0, ⟨0, 2, 0⟩)] :=
  ⟨(claim10_zero_divisor (α := ℕ)).1 [(0, ⟨0, 0, 0⟩)] [] [] [(0, 0)] 1 [(0, 0)]
     (by norm_num [sumSpill]) (by norm_num [zeroObserved, dget, lookupQ])
     (by norm_num [weightsOf, zeroObserved, dget, lookupQ]) (by norm_num),
   (claim10_zero_divisor (α := ℕ)).2 [(0, ⟨0, 2, 0⟩)] [(0, 5)] [] [] 3
     (by norm_num [sumSpill]) (by norm_num [zeroObserved, dget, lookupQ])⟩

/-- Counterexample to C7 as stated: product 0 has availability 1, so its
spill is 0 while its pro-rata recapture is 3, and its estimated demand
7 is below its observed demand 10. -/
theorem claim7_counterexample :
    estimate_class_level [((0 : ℕ), (10 : ℚ))] [(0, 1), (1, 0)]
        [(0, 1 / 2), (1, 1 / 4)] (1 / 5) true
      = .ok [(0, ⟨7, 0, 3⟩), (1, ⟨21 / 5, 21 / 5, 0⟩)] ∧
    dget [((0 : ℕ), (10 : ℚ))] 0 0 = 10 ∧ ¬ ((10 : ℚ) ≤ 7) :=
  ⟨by norm_num [estimate_class_level, estimate_host_level,
      demand_mass_balance_h, solve3, det3, classLoop, demand_mass_balance_c,
      solve2, calibrate_no_booking, zeroObserved, weightsOf, updEst,
      applyWeights, sumSpill, dget, lookupQ],
   by norm_num [dget, lookupQ], by norm_num⟩

/-- C7 (amended): a non-zero-observed product's estimated demand is at
least its observed demand exactly when its spill is at least its
recapture (demand = odemand + spill - recapture); in the spec's scenario,
product A's demand is 235/2, at least its observed 100. -/
theorem claim7_demand_bound :
    (∀ (observed availability probs : List (α × ℚ)) (nofly_prob : ℚ)
      (cal : Bool) (m : List (α × Estimate)) (hd hs hr : ℚ),
      estimate_host_level observed availability probs nofly_prob
        = some (hd, hs, hr) →
      estimate_class_level observed availability probs nofly_prob cal = .ok m →
      ∀ (p : α) (e : Estimate), lookupQ m p = some e → dget observed p 0 ≠ 0 →
        e.recapture ≤ e.spill → dget observed p 0 ≤ e.demand) ∧
    (estimate_class_level [((0 : ℕ), (100 : ℚ))] [(0, 4 / 5), (1, 1)]
        [(0, 3 / 10), (1, 1 / 5)] (1 / 2) true
      = .ok [(0, ⟨235 / 2, 47 / 2, 6⟩), (1, ⟨0, 0, 0⟩)] ∧
      (100 : ℚ) ≤ 235 / 2) := by
  constructor
  · intro observed availability probs nofly_prob cal m hd hs hr hhost hm p e
      hp hod hsr
    obtain ⟨es0, hc, hrest⟩ := ecl_ok_parts hhost hm
    have hlm : lookupQ m p = lookupQ es0 p := by
      cases hrest with
      | inl h5 => exact calibrate_frame h5.2 hod
      | inr h5 => rw [h5.2]
    rw [hlm] at hp
    cases classLoop_ok_lookup hc hp with
    | inl h6 => exact absurd h6.1 hod
    | inr h6 =>
      obtain ⟨h7, h8, h9⟩ := demand_mass_balance_c_spec hod h6.2
      linarith
  · exact ⟨by
      norm_num [estimate_class_level, estimate_host_level,
        demand_mass_balance_h, solve3, det3, classLoop, demand_mass_balance_c,
        solve2, calibrate_no_booking, zeroObserved, weightsOf, updEst,
        applyWeights, sumSpill, dget, lookupQ], by norm_num⟩

/-- Witness for C7: in the scenario, product 0's spill 47/2 dominates its
recapture 6, so its demand 235/2 is at least the observed 100. -/
theorem claim7_witness :
    dget [((0 : ℕ), (100 : ℚ))] 0 0 ≤ (⟨235 / 2, 47 / 2, 6⟩ : Estimate).demand :=
  (claim7_demand_bound (α := ℕ)).1 [(0, 100)] [(0, 4 / 5), (1, 1)]
    [(0, 3 / 10), (1, 1 / 5)] (1 / 2) true
    [(0, ⟨235 / 2, 47 / 2, 6⟩), (1, ⟨0, 0, 0⟩)] (1175 / 11) (141 / 11) 6
    (by norm_num [estimate_host_level, demand_mass_balance_h, solve3, det3,
      dget, lookupQ])
    (by norm_num [estimate_class_level, estimate_host_level,
      demand_mass_balance_h, solve3, det3, classLoop, demand_mass_balance_c,
      solve2, calibrate_no_booking, zeroObserved, weightsOf, updEst,
      applyWeights, sumSpill, dget, lookupQ])
    0 ⟨235 / 2, 47 / 2, 6⟩ (by norm_num [lookupQ]) (by norm_num [dget, lookupQ])
    (by norm_num)

/-- Counterexample to C6 as stated: on the empty utility mapping the
normalizing denominator is 0 and the source raises ZeroDivisionError, so no
probabilities summing to 1 are returned. -/
theorem claim6_counterexample :
    selection_probs ([] : List (ℕ × ℝ)) (1 / 2) = none := by
  unfold selection_probs
  rw [if_neg (by norm_num : ¬ ((1 / 2 : ℝ) = 0))]
  simp

/-- C6 (amended): for every nonempty utility mapping and market_share in
(0,1), selection_probs returns a probability mapping and a no-fly
probability that together sum to 1 (exactly, in the real model). -/
theorem claim6_probability_conservation {κ : Type} (utilities : List (κ × ℝ))
    (market_share : ℝ) (hne : utilities ≠ []) (h0 : 0 < market_share)
    (h1 : market_share < 1) :
    ∃ ps nf, selection_probs utilities market_share = some (ps, nf) ∧
      (ps.map Prod.snd).sum + nf = 1 := by
  have hms : market_share ≠ 0 := ne_of_gt h0
  have hexp : 0 < (utilities.map fun pu => Real.exp pu.2).sum := by
    cases utilities with
    | nil => exact absurd rfl hne
    | cons u us =>
      rw [List.map_cons, List.sum_cons]
      have h2 : (0 : ℝ) ≤ (us.map fun pu => Real.exp pu.2).sum :=
        List.sum_nonneg (by
          intro x hx
          obtain ⟨pu, hpu, hx2⟩ := List.mem_map.mp hx
          rw [← hx2]
          exact (Real.exp_pos pu.2).le)
      have h3 := Real.exp_pos u.2
      linarith
  have hnofly : 0 ≤ (utilities.map fun pu => Real.exp pu.2).sum
      * (1 - market_share) / market_share := by
    apply div_nonneg _ h0.le
    apply mul_nonneg hexp.le
    linarith
  have htot : (utilities.map fun pu => Real.exp pu.2).sum
      + (utilities.map fun pu => Real.exp pu.2).sum
        * (1 - market_share) / market_share ≠ 0 := by
    have h4 : 0 < (utilities.map fun pu => Real.exp pu.2).sum
        + (utilities.map fun pu => Real.exp pu.2).sum
          * (1 - market_share) / market_share := by linarith
    exact ne_of_gt h4
  unfold selection_probs
  rw [if_neg hms]
  simp only []
  rw [if_neg htot]
  refine ⟨_, _, rfl, ?_⟩
  rw [List.map_map]
  have hcomp : (Prod.snd ∘ fun pu : κ × ℝ =>
      (pu.1, Real.exp pu.2 / ((utilities.map fun pu => Real.exp pu.2).sum
        + (utilities.map fun pu => Real.exp pu.2).sum
          * (1 - market_share) / market_share)))
      = fun pu : κ × ℝ => Real.exp pu.2
        / ((utilities.map fun pu => Real.exp pu.2).sum
          + (utilities.map fun pu => Real.exp pu.2).sum
            * (1 - market_share) / market_share) := rfl
  rw [hcomp, sum_div_list, div_add_div_same, div_self htot]

/-- Witness for C6 on the single-product mapping with utility 0 and
market_share 1/2. -/
theorem claim6_witness :
    ∃ ps nf, selection_probs [((0 : ℕ), (0 : ℝ))] (1 / 2) = some (ps, nf) ∧
      (ps.map Prod.snd).sum + nf = 1 :=
  claim6_probability_conservation [((0 : ℕ), (0 : ℝ))] (1 / 2) (by simp)
    (by norm_num) (by norm_num)

end Mfrm

